import Mathlib

set_option maxRecDepth 100000

/-!
Verification development for the lead-scraper repository.

Shallow embedding of the core pipeline:
* `normalizeName` — `DatabaseManager.normalize_name` (database_manager.py)
* difflib `SequenceMatcher.ratio` — used by `Deduplicator._calculate_similarity`
* `Deduplicator` — deduplicate / _find_fuzzy_duplicate / _merge_duplicates
* `LeadPrioritizer` — score_leads / _calculate_priority_score / _get_priority_category
* `DatabaseManager` — add_business (COALESCE upsert), mark_area_scraped,
  _calculate_scrape_quality, is_area_scraped

Python strings are modelled as Lean `String` (lists of unicode chars);
`None`-able fields as `Option`; Python floats as `Rat` (the comparisons the
code performs are exact on the decimal literals involved); timestamps as
`Int` seconds.
-/

/-! ## String utilities (Python `str` operations used by the code) -/

/-- Python whitespace characters relevant to `str.split` / `str.strip`. -/
def isSpaceChar (c : Char) : Bool :=
  c = ' ' ∨ c = '\t' ∨ c = '\n' ∨ c = '\r' ∨ c = '\x0b' ∨ c = '\x0c'

/-- Unicode lowercase mapping for the alphabets this repository handles:
ASCII plus the Czech diacritic letters (Python `str.lower`). -/
def lowerPairs : List (Char × Char) :=
  [('A', 'a'), ('B', 'b'), ('C', 'c'), ('D', 'd'), ('E', 'e'), ('F', 'f'),
   ('G', 'g'), ('H', 'h'), ('I', 'i'), ('J', 'j'), ('K', 'k'), ('L', 'l'),
   ('M', 'm'), ('N', 'n'), ('O', 'o'), ('P', 'p'), ('Q', 'q'), ('R', 'r'),
   ('S', 's'), ('T', 't'), ('U', 'u'), ('V', 'v'), ('W', 'w'), ('X', 'x'),
   ('Y', 'y'), ('Z', 'z'),
   ('Á', 'á'), ('Č', 'č'), ('Ď', 'ď'), ('É', 'é'), ('Ě', 'ě'), ('Í', 'í'),
   ('Ň', 'ň'), ('Ó', 'ó'), ('Ř', 'ř'), ('Š', 'š'), ('Ť', 'ť'), ('Ú', 'ú'),
   ('Ů', 'ů'), ('Ý', 'ý'), ('Ž', 'ž')]

/-- `str.lower` on a single character. -/
def lowerChar (c : Char) : Char :=
  match lowerPairs.find? (fun p => p.1 = c) with
  | some p => p.2
  | none => c

/-- `str.lower` on a list of characters. -/
def lowerL (s : List Char) : List Char := s.map lowerChar

/-- `str.strip()` on a char list: drop leading and trailing whitespace. -/
def stripL (s : List Char) : List Char :=
  ((s.dropWhile isSpaceChar).reverse.dropWhile isSpaceChar).reverse

/-- Accumulator-style `str.split()` (split on whitespace runs, no empties). -/
def splitWSAux : List Char → List Char → List (List Char)
  | [], acc => if acc = [] then [] else [acc.reverse]
  | c :: cs, acc =>
    if isSpaceChar c then
      if acc = [] then splitWSAux cs []
      else acc.reverse :: splitWSAux cs []
    else splitWSAux cs (c :: acc)

/-- Python `str.split()` with no arguments. -/
def splitWS (s : List Char) : List (List Char) := splitWSAux s []

/-- Python `' '.join(tokens)`. -/
def joinSpace : List (List Char) → List Char
  | [] => []
  | [t] => t
  | t :: t₂ :: ts => t ++ ' ' :: joinSpace (t₂ :: ts)

/-- Python `' '.join(s.split())`: collapse whitespace runs to single spaces. -/
def collapseWS (s : List Char) : List Char := joinSpace (splitWS s)

/-- Fuel-indexed body of Python `str.replace`: replace every non-overlapping
occurrence of `pat`, scanning left to right.  With fuel at least the length
of the input this is exactly `str.replace`; each step consumes at least one
input character since `pat` is nonempty at every call site. -/
def replaceFuel (pat repl : List Char) : Nat → List Char → List Char
  | 0, s => s
  | _ + 1, [] => []
  | fuel + 1, c :: cs =>
    if pat.isPrefixOf (c :: cs) then
      repl ++ replaceFuel pat repl fuel ((c :: cs).drop pat.length)
    else
      c :: replaceFuel pat repl fuel cs

/-- Python `str.replace(pat, repl)`.  (`pat = []` is never used by the code;
it is mapped to the identity to keep the function total.) -/
def replaceL (s pat repl : List Char) : List Char :=
  match pat with
  | [] => s
  | _ :: _ => replaceFuel pat repl s.length s

/-- Python substring test `pat in s`. -/
def containsSub (pat : List Char) : List Char → Bool
  | [] => pat.isPrefixOf []
  | c :: cs => pat.isPrefixOf (c :: cs) || containsSub pat cs

/-! ## `DatabaseManager.normalize_name` -/

/-- `DatabaseManager.normalize_name` on char lists: lowercase, remove the
trade-descriptor tokens, drop `&`, turn `-` into space, collapse whitespace,
strip.  (`if not name: return ""` is the empty-list case.) -/
def normalizeNameL (name : List Char) : List Char :=
  if name = [] then []
  else
    let n := lowerL name
    let n := replaceL n "restaurace".data []
    let n := replaceL n "restaurant".data []
    let n := replaceL n "kavárna".data []
    let n := replaceL n "café".data []
    let n := replaceL n "cafe".data []
    let n := replaceL n ['&'] []
    let n := replaceL n ['-'] [' ']
    let n := collapseWS n
    stripL n

/-- `DatabaseManager.normalize_name`. -/
def normalizeName (name : String) : String := ⟨normalizeNameL name.data⟩

/-! ## difflib `SequenceMatcher.ratio` (used by `Deduplicator._calculate_similarity`) -/

/-- Length of the common prefix run of two char lists. -/
def runLen : List Char → List Char → Nat
  | a :: as, b :: bs => if a = b then runLen as bs + 1 else 0
  | _, _ => 0

/-- All triples `(i, j, runLen (a.drop i) (b.drop j))` in row-major order
(`i` ascending, then `j` ascending) — the discovery order of
`SequenceMatcher.find_longest_match` for short (junk-free) strings. -/
def allRuns (a b : List Char) : List (Nat × Nat × Nat) :=
  (List.range a.length).flatMap fun i =>
    (List.range b.length).map fun j => (i, j, runLen (a.drop i) (b.drop j))

/-- `find_longest_match` over the whole strings: the longest matching block,
ties resolved to the smallest `i`, then the smallest `j` (difflib's rule for
junk-free inputs).  `(0, 0, 0)` when there is no match. -/
def bestTriple (a b : List Char) : Nat × Nat × Nat :=
  let runs := allRuns a b
  let m : Nat := runs.foldl (fun acc t => max acc t.2.2) 0
  if m = 0 then (0, 0, 0)
  else ((runs.find? fun t => t.2.2 = m).getD (0, 0, 0))

/-- Fuel-indexed total match size of `get_matching_blocks`: the longest block
plus, recursively, the blocks strictly to its left and right.  Fuel at least
`a.length + b.length + 1` is always sufficient. -/
def matchTotalFuel : Nat → List Char → List Char → Nat
  | 0, _, _ => 0
  | fuel + 1, a, b =>
    let t := bestTriple a b
    if t.2.2 = 0 then 0
    else
      t.2.2 + matchTotalFuel fuel (a.take t.1) (b.take t.2.1)
            + matchTotalFuel fuel (a.drop (t.1 + t.2.2)) (b.drop (t.2.1 + t.2.2))

/-- Total number of matched characters between `a` and `b`. -/
def matchTotal (a b : List Char) : Nat :=
  matchTotalFuel (a.length + b.length + 1) a b

/-- `SequenceMatcher.ratio()`: `2 * M / (len(a) + len(b))`
(difflib returns `1.0` when both strings are empty).  Built with `mkRat`
so that concrete values evaluate. -/
def ratioL (a b : List Char) : Rat :=
  if a.length + b.length = 0 then 1
  else mkRat (2 * matchTotal a b) (a.length + b.length)

/-- `Deduplicator._calculate_similarity`. -/
def calculateSimilarity (str1 str2 : String) : Rat := ratioL str1.data str2.data

/-! ## Business records

One fixed schema stands in for the Python dicts flowing through the
pipeline.  A missing / `None` string key and an empty string are both
falsy in every test the code performs on these fields, so string fields
are plain `String` with `""` for absent; `google_rating` and
`website_quality_score` keep `Option` because the code distinguishes
`None`/absent from a present numeric value. -/

structure Business where
  business_name : String := ""
  ico : String := ""
  phone : String := ""
  address : String := ""
  city : String := ""
  email : String := ""
  website : String := ""
  instagram : String := ""
  facebook : String := ""
  google_rating : Option Rat := none
  website_quality_score : Option Int := none
  business_activities : List String := []
  notes : String := ""
  priority_score : Int := 0
  priority_category : String := ""
deriving DecidableEq, Inhabited

/-- Python truthiness of an optional rating (`None` and `0.0` are falsy). -/
def truthyRat : Option Rat → Bool
  | none => false
  | some v => v ≠ 0

/-- Python truthiness of an optional integer score. -/
def truthyInt : Option Int → Bool
  | none => false
  | some v => v ≠ 0

/-- `sum(1 for v in business.values() if v)` in `_merge_duplicates`. -/
def completeness (b : Business) : Nat :=
  (if b.business_name ≠ "" then 1 else 0) +
  (if b.ico ≠ "" then 1 else 0) +
  (if b.phone ≠ "" then 1 else 0) +
  (if b.address ≠ "" then 1 else 0) +
  (if b.city ≠ "" then 1 else 0) +
  (if b.email ≠ "" then 1 else 0) +
  (if b.website ≠ "" then 1 else 0) +
  (if b.instagram ≠ "" then 1 else 0) +
  (if b.facebook ≠ "" then 1 else 0) +
  (if truthyRat b.google_rating then 1 else 0) +
  (if truthyInt b.website_quality_score then 1 else 0) +
  (if b.business_activities ≠ [] then 1 else 0) +
  (if b.notes ≠ "" then 1 else 0) +
  (if b.priority_score ≠ 0 then 1 else 0) +
  (if b.priority_category ≠ "" then 1 else 0)

/-! ## `Deduplicator._merge_duplicates`

The generic fill loop (`if value and not merged.get(key): merged[key] = value`)
acts independently on each key, so it is written per field; the special
handlers for ratings / quality score / activities run after it, exactly as in
the source. -/

/-- Generic fill for a string-valued field. -/
def fillStr (base source : String) : String :=
  if source ≠ "" ∧ base = "" then source else base

/-- Generic fill for `priority_score` (an `int`-valued key). -/
def fillInt (base source : Int) : Int :=
  if source ≠ 0 ∧ base = 0 then source else base

/-- Generic fill followed by the "use higher value" handler for
`google_rating`. -/
def mergeRatingVal (base source : Option Rat) : Option Rat :=
  let m := if truthyRat source ∧ ¬ truthyRat base then source else base
  match source with
  | some v =>
    if v ≠ 0 then
      match m with
      | none => some v
      | some w => if v > w then some v else m
    else m
  | none => m

/-- Generic fill followed by the "use higher value" handler for
`website_quality_score` (`merged.get(key, 0)` default). -/
def mergeWqsVal (base source : Option Int) : Option Int :=
  let m := if truthyInt source ∧ ¬ truthyInt base then source else base
  match source with
  | some v => if v > m.getD 0 then some v else m
  | none => m

/-- Generic fill followed by the set-union handler for
`business_activities` (`list(set(a).union(set(b)))`, modelled as ordered
duplicate removal — only the set of elements is meaningful). -/
def mergeActivities (base source : List String) : List String :=
  let m := if source ≠ [] ∧ base = [] then source else base
  (m ++ source).dedup

/-- `Deduplicator._merge_duplicates`: the record with more non-empty fields
is the base (ties favour the first record), the other is the source. -/
def mergeDuplicates (b1 b2 : Business) : Business :=
  let base := if completeness b2 > completeness b1 then b2 else b1
  let source := if completeness b2 > completeness b1 then b1 else b2
  { business_name := fillStr base.business_name source.business_name
    ico := fillStr base.ico source.ico
    phone := fillStr base.phone source.phone
    address := fillStr base.address source.address
    city := fillStr base.city source.city
    email := fillStr base.email source.email
    website := fillStr base.website source.website
    instagram := fillStr base.instagram source.instagram
    facebook := fillStr base.facebook source.facebook
    google_rating := mergeRatingVal base.google_rating source.google_rating
    website_quality_score := mergeWqsVal base.website_quality_score source.website_quality_score
    business_activities := mergeActivities base.business_activities source.business_activities
    notes := fillStr base.notes source.notes
    priority_score := fillInt base.priority_score source.priority_score
    priority_category := fillStr base.priority_category source.priority_category }

/-! ## `Deduplicator._find_fuzzy_duplicate` and `deduplicate` -/

/-- `.lower().strip()` as applied to names and addresses. -/
def lowerStrip (s : String) : String := ⟨stripL (lowerL s.data)⟩

/-- Candidate scan of `_find_fuzzy_duplicate`: name similarity must reach the
threshold; if both sides carry an address, an address similarity below `0.5`
vetoes the match. -/
def findFuzzyAux (threshold : Rat) (targetName targetAddress : String) :
    List Business → Nat → Option Nat
  | [], _ => none
  | c :: rest, idx =>
    let candidateName := lowerStrip c.business_name
    if candidateName = "" then findFuzzyAux threshold targetName targetAddress rest (idx + 1)
    else if calculateSimilarity targetName candidateName ≥ threshold then
      let candidateAddress := lowerStrip c.address
      if targetAddress ≠ "" ∧ candidateAddress ≠ "" ∧
          calculateSimilarity targetAddress candidateAddress < mkRat 1 2 then
        findFuzzyAux threshold targetName targetAddress rest (idx + 1)
      else some idx
    else findFuzzyAux threshold targetName targetAddress rest (idx + 1)

/-- `Deduplicator._find_fuzzy_duplicate target candidates start_index`. -/
def findFuzzyDuplicate (threshold : Rat) (target : Business)
    (candidates : List Business) (startIndex : Nat) : Option Nat :=
  let targetName := lowerStrip target.business_name
  if targetName = "" then none
  else findFuzzyAux threshold targetName (lowerStrip target.address) candidates startIndex

/-- The index loop of `Deduplicator.deduplicate`.  `pending` enumerates the
indices still to visit; `processed`, `seenIcos`, `seenPhones` mirror the
loop's mutable sets.  Fuzzy candidates are taken from the original list
`all` (`businesses[i+1:]`), exactly as in the source — including entries
that were already merged into an earlier record. -/
def dedupGo (threshold : Rat) (all : List Business) :
    List Nat → List Nat → List String → List String → List Business
  | [], _, _, _ => []
  | i :: pending, processed, seenIcos, seenPhones =>
    if i ∈ processed then dedupGo threshold all pending processed seenIcos seenPhones
    else
      let b := all.getD i default
      if b.ico ≠ "" ∧ b.ico ∈ seenIcos then
        dedupGo threshold all pending processed seenIcos seenPhones
      else if b.phone ≠ "" ∧ b.phone ∈ seenPhones then
        dedupGo threshold all pending processed seenIcos seenPhones
      else
        let seenIcos' := if b.ico ≠ "" then b.ico :: seenIcos else seenIcos
        let seenPhones' := if b.phone ≠ "" then b.phone :: seenPhones else seenPhones
        match findFuzzyDuplicate threshold b (all.drop (i + 1)) (i + 1) with
        | some j =>
          mergeDuplicates b (all.getD j default) ::
            dedupGo threshold all pending (j :: i :: processed) seenIcos' seenPhones'
        | none =>
          b :: dedupGo threshold all pending (i :: processed) seenIcos' seenPhones'

/-- `Deduplicator.deduplicate`. -/
def deduplicate (threshold : Rat) (businesses : List Business) : List Business :=
  dedupGo threshold businesses (List.range businesses.length) [] [] []

/-! ### Concrete records for the claim scenarios -/

/-- C7 scenario, first record. -/
def kavarnaRec1 : Business :=
  { business_name := "Kavárna Přátelství", address := "Praha 1, Hybernská 7" }

/-- C7 scenario, second record. -/
def kavarnaRec2 : Business :=
  { business_name := "kavarna pratelstvi", address := "Praha 1, Hybernska7" }

/-- Phone-duplicate pair: the second record carries an email the first lacks. -/
def phoneDup1 : Business :=
  { business_name := "alfa bar", phone := "420111222333", address := "Praha 3" }

/-- Phone-duplicate pair, second record. -/
def phoneDup2 : Business :=
  { business_name := "omega grill", phone := "420111222333", email := "omega@example.cz" }

/-- IČO-duplicate pair. -/
def icoDup1 : Business := { business_name := "g one", ico := "12345678" }

/-- IČO-duplicate pair, second record (same IČO, extra website). -/
def icoDup2 : Business :=
  { business_name := "totally other", ico := "12345678", website := "http://other.cz" }

/-- Fuzzy-duplicate pair (identical names and addresses). -/
def fuzzyDup1 : Business :=
  { business_name := "stare bistro", address := "Dlouha 1", email := "a@b.cz" }

/-- Fuzzy-duplicate pair, second record. -/
def fuzzyDup2 : Business :=
  { business_name := "stare bistro", address := "Dlouha 1", phone := "777888999" }

/-! ## `LeadPrioritizer` -/

/-- Scoring weights (`scoring_config`, defaulting as in the constructor). -/
structure ScoringConfig where
  no_website : Int := 100
  poor_website : Int := 75
  no_email : Int := 50
  no_social : Int := 25
deriving DecidableEq

def PRIORITY_IMMEDIATE : String := "IMMEDIATE OPPORTUNITY"

def PRIORITY_HIGH : String := "HIGH PRIORITY"

def PRIORITY_MEDIUM : String := "MEDIUM PRIORITY"

def PRIORITY_LOW : String := "LOW PRIORITY"

/-- `LeadPrioritizer._add_note`. -/
def addNote (existingNotes newNote : String) : String :=
  if existingNotes ≠ "" then existingNotes ++ "; " ++ newNote else newNote

/-- `LeadPrioritizer._calculate_priority_score`, returning the clamped score
together with the notes string it wrote into the record (the in-place
mutation of `business['notes']`). -/
def calculatePriorityScore (cfg : ScoringConfig) (b : Business) : Int × String :=
  let score : Int := 0
  let notes := b.notes
  let website := b.website
  let websiteQuality := b.website_quality_score.getD 0
  let (score, notes) :=
    if website = "" then
      (score + cfg.no_website, addNote notes "No website - High opportunity")
    else if websiteQuality < 50 then
      (score + cfg.poor_website, addNote notes "Poor website quality")
    else (score, notes)
  let (score, notes) :=
    if b.email = "" then (score + cfg.no_email, addNote notes "No email found")
    else (score, notes)
  let (score, notes) :=
    if b.instagram = "" ∧ b.facebook = "" then
      (score + cfg.no_social, addNote notes "No social media")
    else (score, notes)
  let (score, notes) :=
    match b.google_rating with
    | some rating =>
      if rating < mkRat 7 2 then (score - 10, addNote notes "Low Google rating")
      else (score, notes)
    | none => (score + 20, addNote notes "No Google reviews")
  let score := if website ≠ "" ∧ containsSub ".cz".data website.data then score + 5 else score
  (max 0 (min score 200), notes)

/-- `LeadPrioritizer._get_priority_category`. -/
def getPriorityCategory (score : Int) : String :=
  if score ≥ 90 then PRIORITY_IMMEDIATE
  else if score ≥ 75 then PRIORITY_HIGH
  else if score ≥ 50 then PRIORITY_MEDIUM
  else PRIORITY_LOW

/-- The per-record body of `LeadPrioritizer.score_leads`: write
`priority_score`, `priority_category` and the notes audit trail. -/
def scoreBusiness (cfg : ScoringConfig) (b : Business) : Business :=
  let sn := calculatePriorityScore cfg b
  { b with notes := sn.2, priority_score := sn.1,
           priority_category := getPriorityCategory sn.1 }

/-- `LeadPrioritizer.score_leads`: score every record, then stable-sort by
descending priority score (Python `list.sort(key=..., reverse=True)`). -/
def scoreLeads (cfg : ScoringConfig) (businesses : List Business) : List Business :=
  (businesses.map (scoreBusiness cfg)).mergeSort
    (fun x y => y.priority_score ≤ x.priority_score)

/-- The note texts of the rules a record triggers, in evaluation order —
used to state how re-scoring grows the audit trail. -/
def triggeredNotes (b : Business) : List String :=
  (if b.website = "" then ["No website - High opportunity"]
   else if b.website_quality_score.getD 0 < 50 then ["Poor website quality"]
   else []) ++
  (if b.email = "" then ["No email found"] else []) ++
  (if b.instagram = "" ∧ b.facebook = "" then ["No social media"] else []) ++
  (match b.google_rating with
   | some rating => if rating < mkRat 7 2 then ["Low Google rating"] else []
   | none => ["No Google reviews"])

/-! ## `DatabaseManager` — area progress (ProgressStore) -/

/-- `MIN_RESULTS_FOR_COMPLETION`. -/
def MIN_RESULTS_FOR_COMPLETION : Int := 50

/-- Key of the `area_progress` table (`UNIQUE(niche, city, area, keyword)`). -/
structure AreaKey where
  niche : String
  city : String
  area : String
  keyword : String
deriving DecidableEq

/-- A row of `area_progress`.  `last_scraped_at` is seconds on the clock
shared by `CURRENT_TIMESTAMP` and `datetime.now()`. -/
structure AreaRow where
  last_scraped_at : Int
  businesses_found : Int
  completed : Bool
  quality_score : Int
deriving DecidableEq

/-- The `area_progress` table: rows headed by their unique key. -/
abbrev AreaDB : Type := List (AreaKey × AreaRow)

/-- `SELECT ... FROM area_progress WHERE niche = ? AND ...` (first hit). -/
def findArea (db : AreaDB) (k : AreaKey) : Option AreaRow :=
  (List.find? (fun e => e.1 = k) db).map (fun e => e.2)

/-- `DatabaseManager._calculate_scrape_quality`. -/
def calculateScrapeQuality (businesses_found : Int) : Int :=
  if businesses_found ≥ 100 then 100
  else if businesses_found ≥ 50 then 80
  else if businesses_found ≥ 20 then 50
  else if businesses_found ≥ 10 then 30
  else 10

/-- `DatabaseManager.mark_area_scraped`: `INSERT OR REPLACE` keyed on
`(niche, city, area, keyword)`, storing the count, the completion flag
`businesses_found >= MIN_RESULTS_FOR_COMPLETION`, the quality score, and
`CURRENT_TIMESTAMP` (`t`). -/
def markAreaScraped (db : AreaDB) (k : AreaKey) (businesses_found : Int)
    (t : Int) : AreaDB :=
  (k, { last_scraped_at := t
        businesses_found := businesses_found
        completed := decide (businesses_found ≥ MIN_RESULTS_FOR_COMPLETION)
        quality_score := calculateScrapeQuality businesses_found }) ::
    List.filter (fun e => ¬ e.1 = k) db

/-- `timedelta(days=7)` in seconds. -/
def SEVEN_DAYS : Int := 7 * 86400

/-- `DatabaseManager.is_area_scraped` at current time `now`: false unless a
row exists, is completed, found at least `MIN_RESULTS_FOR_COMPLETION`
businesses, and was scraped strictly less than 7 days ago. -/
def isAreaScraped (db : AreaDB) (now : Int) (k : AreaKey) : Bool :=
  match findArea db k with
  | none => false
  | some r =>
    if ¬ r.completed then false
    else if r.businesses_found < MIN_RESULTS_FOR_COMPLETION then false
    else if now - r.last_scraped_at ≥ SEVEN_DAYS then false
    else true

/-! ## `DatabaseManager` — businesses table and the `add_business` upsert -/

/-- An incoming business dict as read by `add_business` (`business.get(...)`;
`none` is an absent key or a `None` value — SQL `NULL` once bound). -/
structure BizRecord where
  business_name : Option String := none
  address : Option String := none
  city : Option String := none
  postal_code : Option String := none
  phone : Option String := none
  email : Option String := none
  website : Option String := none
  instagram : Option String := none
  facebook : Option String := none
  google_rating : Option Rat := none
  google_place_id : Option String := none
  niche : Option String := none
  source : Option String := none
  notes : Option String := none
deriving DecidableEq

/-- A stored row of the `businesses` table. -/
structure BizRow where
  id : Int
  business_name : String
  normalized_name : String
  address : Option String
  city : Option String
  postal_code : Option String
  phone : Option String
  email : Option String
  website : Option String
  instagram : Option String
  facebook : Option String
  google_rating : Option Rat
  google_place_id : Option String
  niche : Option String
  source : Option String
  last_updated_at : Int
  scrape_count : Int
  notes : Option String
deriving DecidableEq

/-- SQL `COALESCE(?, column)` with the incoming value bound first. -/
def coalesce {α : Type} (incoming stored : Option α) : Option α :=
  match incoming with
  | some v => some v
  | none => stored

/-- The `UPDATE businesses SET ... COALESCE(?, field) ... WHERE id = ?`
branch of `add_business`, at timestamp `t`. -/
def updateExistingBusiness (t : Int) (row : BizRow) (b : BizRecord) : BizRow :=
  { row with
    address := coalesce b.address row.address
    city := coalesce b.city row.city
    postal_code := coalesce b.postal_code row.postal_code
    phone := coalesce b.phone row.phone
    email := coalesce b.email row.email
    website := coalesce b.website row.website
    instagram := coalesce b.instagram row.instagram
    facebook := coalesce b.facebook row.facebook
    google_rating := coalesce b.google_rating row.google_rating
    last_updated_at := t
    scrape_count := row.scrape_count + 1
    notes := coalesce b.notes row.notes }

/-- ASCII lowercase (SQLite `LIKE` is ASCII-case-insensitive). -/
def asciiLowerChar (c : Char) : Char :=
  if 'A' ≤ c ∧ c ≤ 'Z' then Char.ofNat (c.toNat + 32) else c

/-- SQLite `column LIKE '%pat%'` on a non-NULL column value. -/
def sqlLikeContains (pat s : String) : Bool :=
  containsSub (pat.data.map asciiLowerChar) (s.data.map asciiLowerChar)

/-- `DatabaseManager.business_exists`: place-id lookup first, then
normalized-name (+ address containment on the first 20 characters, or
NULL address) lookup, then normalized-name alone; first row wins. -/
def businessExists (db : List BizRow) (business_name : String)
    (address : Option String) (google_place_id : Option String) : Option Int :=
  let byPlaceId : Option Int :=
    match google_place_id with
    | some pid =>
      if pid ≠ "" then (List.find? (fun r => r.google_place_id = some pid) db).map (·.id)
      else none
    | none => none
  match byPlaceId with
  | some i => some i
  | none =>
    let normalized := normalizeName business_name
    if normalized = "" then none
    else
      match address with
      | some a =>
        if a ≠ "" then
          (List.find? (fun r =>
            decide (r.normalized_name = normalized) &&
              (match r.address with
               | some ra => sqlLikeContains ⟨a.data.take 20⟩ ra
               | none => true)) db).map (·.id)
        else
          (List.find? (fun r => r.normalized_name = normalized) db).map (·.id)
      | none =>
        (List.find? (fun r => r.normalized_name = normalized) db).map (·.id)

/-- `AUTOINCREMENT`: one more than the largest id ever used (ids start at 1). -/
def nextId (db : List BizRow) : Int :=
  1 + List.foldl (fun acc r => max acc r.id) 0 db

/-- The `INSERT INTO businesses ...` branch of `add_business`. -/
def insertBusiness (db : List BizRow) (b : BizRecord) (t : Int) : BizRow :=
  { id := nextId db
    business_name := b.business_name.getD ""
    normalized_name := normalizeName (b.business_name.getD "")
    address := b.address
    city := b.city
    postal_code := b.postal_code
    phone := b.phone
    email := b.email
    website := b.website
    instagram := b.instagram
    facebook := b.facebook
    google_rating := b.google_rating
    google_place_id := b.google_place_id
    niche := b.niche
    source := b.source
    last_updated_at := t
    scrape_count := 1
    notes := b.notes }

/-- `DatabaseManager.add_business` at timestamp `t`: update the existing row
found by `business_exists`, or insert a new one.  Returns the new table and
the business id. -/
def addBusiness (db : List BizRow) (b : BizRecord) (t : Int) : List BizRow × Int :=
  match businessExists db (b.business_name.getD "") b.address b.google_place_id with
  | some i => (db.map (fun r => if r.id = i then updateExistingBusiness t r b else r), i)
  | none =>
    let r := insertBusiness db b t
    (db ++ [r], r.id)

/-! ### Concrete rows and records used in claim instances -/

/-- A stored businesses row whose phone is `+420111111111`. -/
def storedRowPhoneA : BizRow :=
  { id := 1, business_name := "Test Bistro", normalized_name := "test bistro",
    address := none, city := none, postal_code := none,
    phone := some "+420111111111", email := none, website := none,
    instagram := none, facebook := none, google_rating := none,
    google_place_id := none, niche := none, source := none,
    last_updated_at := 0, scrape_count := 1, notes := none }

/-- An incoming record for the same business carrying a different phone. -/
def incomingPhoneB : BizRecord :=
  { business_name := some "Test Bistro", phone := some "+420222222222" }

/-- The raw (pre-clamp) additive score of `_calculate_priority_score`. -/
def rawScore (cfg : ScoringConfig) (b : Business) : Int :=
  (if b.website = "" then cfg.no_website
   else if b.website_quality_score.getD 0 < 50 then cfg.poor_website else 0) +
  (if b.email = "" then cfg.no_email else 0) +
  (if b.instagram = "" ∧ b.facebook = "" then cfg.no_social else 0) +
  (match b.google_rating with
   | some rating => if rating < mkRat 7 2 then -10 else 0
   | none => 20) +
  (if b.website ≠ "" ∧ containsSub ".cz".data b.website.data then 5 else 0)

/-- The default scoring weights. -/
def defaultConfig : ScoringConfig := {}

/-- The spec's worked scoring example: no website, no email, no social,
rating 4.8. -/
def ratedLead : Business := { business_name := "x", google_rating := some (mkRat 24 5) }

/-- Records with present nonzero ratings, for the C4 witness. -/
def ratedDupA : Business := { business_name := "r", google_rating := some (mkRat 4 1) }

/-- Second rated record for the C4 witness. -/
def ratedDupB : Business := { business_name := "r", google_rating := some (mkRat 9 2) }

/-! ## Claim theorems -/

/-- C1: `is_area_scraped` returns true iff an `area_progress` record exists
for the tuple, its `completed` flag is true, its `businesses_found` is at
least `MIN_RESULTS_FOR_COMPLETION = 50`, and its `last_scraped_at` is
strictly within the last 7 days; in particular it is false at exactly
7 days + 1 second, false when `businesses_found < 50` despite
`completed = true`, and true at 6 days 23 hours with 50 businesses. -/
theorem c1_is_area_scraped_iff :
    (∀ (db : AreaDB) (now : Int) (k : AreaKey),
      isAreaScraped db now k = true ↔
        ∃ r : AreaRow, findArea db k = some r ∧ r.completed = true ∧
          MIN_RESULTS_FOR_COMPLETION ≤ r.businesses_found ∧
          now - r.last_scraped_at < SEVEN_DAYS) ∧
    (∀ (k : AreaKey) (t : Int),
      isAreaScraped [(k, ⟨t, 50, true, 80⟩)] (t + (SEVEN_DAYS + 1)) k = false) ∧
    (∀ (k : AreaKey) (t now : Int),
      isAreaScraped [(k, ⟨t, 49, true, 50⟩)] now k = false) ∧
    (∀ (k : AreaKey) (t : Int),
      isAreaScraped [(k, ⟨t, 50, true, 80⟩)] (t + (6 * 86400 + 23 * 3600)) k = true) := by
  refine ⟨?_, ?_, ?_, ?_⟩
  · intro db now k
    unfold isAreaScraped
    cases h : findArea db k with
    | none => simp
    | some r =>
      simp only [Option.some.injEq]
      constructor
      · intro hT
        refine ⟨r, rfl, ?_, ?_, ?_⟩ <;> by_cases h1 : r.completed = true <;>
          by_cases h2 : r.businesses_found < MIN_RESULTS_FOR_COMPLETION <;>
          by_cases h3 : now - r.last_scraped_at ≥ SEVEN_DAYS <;>
          simp_all <;> omega
      · rintro ⟨r', hr', hc, hb, ht⟩
        cases hr'
        simp [hc]
        constructor <;> omega
  · intro k t
    simp [isAreaScraped, findArea, List.find?, SEVEN_DAYS, MIN_RESULTS_FOR_COMPLETION]
  · intro k t now
    simp [isAreaScraped, findArea, List.find?, SEVEN_DAYS, MIN_RESULTS_FOR_COMPLETION]
  · intro k t
    simp [isAreaScraped, findArea, List.find?, SEVEN_DAYS, MIN_RESULTS_FOR_COMPLETION]

/-- C3: `mark_area_scraped` stores the step-function quality score and
`completed = (count_found ≥ 50)`, and replaces (not accumulates) the row
for the key; with count 12 it stores quality 30 and completed = false, and
`is_area_scraped` on that key then returns false. -/
theorem c3_mark_area_scraped_stores :
    ∀ (db : AreaDB) (k : AreaKey) (count t now : Int),
      findArea (markAreaScraped db k count t) k =
        some { last_scraped_at := t, businesses_found := count,
               completed := decide (count ≥ MIN_RESULTS_FOR_COMPLETION),
               quality_score := calculateScrapeQuality count } ∧
      List.countP (fun e => decide (e.1 = k)) (markAreaScraped db k count t) = 1 ∧
      calculateScrapeQuality count =
        (if count ≥ 100 then 100 else if count ≥ 50 then 80
         else if count ≥ 20 then 50 else if count ≥ 10 then 30 else 10) ∧
      findArea (markAreaScraped db k 12 t) k =
        some { last_scraped_at := t, businesses_found := 12,
               completed := false, quality_score := 30 } ∧
      isAreaScraped (markAreaScraped db k 12 t) now k = false := by
  intro db k count t now
  refine ⟨?_, ?_, rfl, ?_, ?_⟩
  · simp [markAreaScraped, findArea, List.find?]
  · simp only [markAreaScraped, List.countP_cons]
    have h0 : List.countP (fun e => decide (e.1 = k))
        (List.filter (fun e : AreaKey × AreaRow => ¬ e.1 = k) db) = 0 := by
      rw [List.countP_eq_zero]
      intro e he
      have := List.of_mem_filter he
      simpa using this
    simp [h0]
  · have : calculateScrapeQuality 12 = 30 := by decide
    simp [markAreaScraped, findArea, List.find?, this,
      MIN_RESULTS_FOR_COMPLETION]
  · simp [markAreaScraped, isAreaScraped, findArea, List.find?,
      MIN_RESULTS_FOR_COMPLETION]

/-! ### Concrete rows for the upsert claims -/

/-- C2 counterexample: with a non-null stored phone and a different non-null
incoming phone, the `COALESCE(?, phone)` upsert REPLACES the stored value —
the claim that a non-null existing field is never overwritten is false. -/
theorem c2_overwrite_counterexample :
    (updateExistingBusiness 5 storedRowPhoneA incomingPhoneB).phone ≠
        storedRowPhoneA.phone ∧
      storedRowPhoneA.phone = some "+420111111111" ∧
      incomingPhoneB.phone = some "+420222222222" ∧
      (updateExistingBusiness 5 storedRowPhoneA incomingPhoneB).phone =
        some "+420222222222" := by
  refine ⟨?_, rfl, rfl, rfl⟩
  decide

/-- C2 amended: for each mergeable field, the `add_business` update keeps the
stored value exactly when the incoming value is null, and a non-null incoming
value always wins — even over a non-null stored value (`COALESCE(?, field)`
with the incoming value bound first). -/
theorem c2_coalesce_update_semantics :
    ∀ (t : Int) (row : BizRow) (b : BizRecord),
      (b.address = none → (updateExistingBusiness t row b).address = row.address) ∧
      (∀ v, b.address = some v → (updateExistingBusiness t row b).address = some v) ∧
      (b.city = none → (updateExistingBusiness t row b).city = row.city) ∧
      (∀ v, b.city = some v → (updateExistingBusiness t row b).city = some v) ∧
      (b.postal_code = none → (updateExistingBusiness t row b).postal_code = row.postal_code) ∧
      (∀ v, b.postal_code = some v → (updateExistingBusiness t row b).postal_code = some v) ∧
      (b.phone = none → (updateExistingBusiness t row b).phone = row.phone) ∧
      (∀ v, b.phone = some v → (updateExistingBusiness t row b).phone = some v) ∧
      (b.email = none → (updateExistingBusiness t row b).email = row.email) ∧
      (∀ v, b.email = some v → (updateExistingBusiness t row b).email = some v) ∧
      (b.website = none → (updateExistingBusiness t row b).website = row.website) ∧
      (∀ v, b.website = some v → (updateExistingBusiness t row b).website = some v) ∧
      (b.instagram = none → (updateExistingBusiness t row b).instagram = row.instagram) ∧
      (∀ v, b.instagram = some v → (updateExistingBusiness t row b).instagram = some v) ∧
      (b.facebook = none → (updateExistingBusiness t row b).facebook = row.facebook) ∧
      (∀ v, b.facebook = some v → (updateExistingBusiness t row b).facebook = some v) ∧
      (b.google_rating = none → (updateExistingBusiness t row b).google_rating = row.google_rating) ∧
      (∀ v, b.google_rating = some v → (updateExistingBusiness t row b).google_rating = some v) ∧
      (b.notes = none → (updateExistingBusiness t row b).notes = row.notes) ∧
      (∀ v, b.notes = some v → (updateExistingBusiness t row b).notes = some v) := by
  intro t row b
  repeat' apply And.intro
  all_goals
    first
      | (intro h; simp [updateExistingBusiness, coalesce, h])
      | (intro v h; simp [updateExistingBusiness, coalesce, h])

/-- Witness for C2's amended theorem at concrete inputs: a null incoming
phone preserves the stored one, a non-null incoming phone overwrites it. -/
theorem c2_coalesce_update_semantics_witness :
    (updateExistingBusiness 5 storedRowPhoneA
        { business_name := some "Test Bistro" }).phone = some "+420111111111" ∧
      (updateExistingBusiness 5 storedRowPhoneA incomingPhoneB).phone =
        some "+420222222222" := by
  constructor
  · exact (c2_coalesce_update_semantics 5 storedRowPhoneA
      { business_name := some "Test Bistro" }).2.2.2.2.2.2.1 rfl
  · exact ((c2_coalesce_update_semantics 5 storedRowPhoneA
      incomingPhoneB).2.2.2.2.2.2.2.1) "+420222222222" rfl

/-- C8: an incoming record whose phone is None leaves the stored phone
`+420111111111` unchanged through the `add_business` upsert; stated for the
update branch in general, plus an end-to-end `add_business` run. -/
theorem c8_upsert_preserves_phone :
    (∀ (t : Int) (row : BizRow) (b : BizRecord),
      row.phone = some "+420111111111" → b.phone = none →
      (updateExistingBusiness t row b).phone = some "+420111111111") ∧
    (addBusiness [storedRowPhoneA] { business_name := some "Test Bistro" } 5).1.map
        (fun r => r.phone) = [some "+420111111111"] := by
  constructor
  · intro t row b hrow hb
    simp [updateExistingBusiness, coalesce, hb, hrow]
  · decide

/-- Witness for C8 at concrete inputs. -/
theorem c8_upsert_preserves_phone_witness :
    (updateExistingBusiness 7 storedRowPhoneA
        { business_name := some "Test Bistro", email := some "a@b.cz" }).phone =
      some "+420111111111" :=
  c8_upsert_preserves_phone.1 7 storedRowPhoneA
    { business_name := some "Test Bistro", email := some "a@b.cz" } rfl rfl

/-- C9: an incoming empty-string phone is non-NULL, so the COALESCE merge
treats it as present and overwrites the stored phone with `""`; only a None
incoming phone preserves the stored value. -/
theorem c9_empty_string_phone_overwrites :
    ∀ (t : Int) (row : BizRow) (b : BizRecord),
      (b.phone = some "" → (updateExistingBusiness t row b).phone = some "") ∧
      (b.phone = none → (updateExistingBusiness t row b).phone = row.phone) := by
  intro t row b
  constructor <;> (intro h; simp [updateExistingBusiness, coalesce, h])

/-- Witness for C9 at concrete inputs: the empty string clobbers a stored
non-empty phone. -/
theorem c9_empty_string_phone_overwrites_witness :
    (updateExistingBusiness 5 storedRowPhoneA
        { business_name := some "Test Bistro", phone := some "" }).phone = some "" :=
  (c9_empty_string_phone_overwrites 5 storedRowPhoneA
    { business_name := some "Test Bistro", phone := some "" }).1 rfl

/-! ### Prioritizer lemmas -/

set_option maxHeartbeats 1000000 in
/-- `_calculate_priority_score` computes the clamped raw score and appends
the triggered rules' notes in evaluation order. -/
theorem calculatePriorityScore_eq (cfg : ScoringConfig) (b : Business) :
    calculatePriorityScore cfg b =
      (max 0 (min (rawScore cfg b) 200),
        List.foldl addNote b.notes (triggeredNotes b)) := by
  rcases hr : b.google_rating with _ | r <;>
    simp only [calculatePriorityScore, rawScore, triggeredNotes, hr] <;>
    split_ifs <;>
    simp_all [List.foldl] <;>
    omega

/-- The four category strings are pairwise distinct and the boundaries of
`_get_priority_category` are exact at 90 / 75 / 50. -/
theorem getPriorityCategory_spec (s : Int) :
    (getPriorityCategory s = PRIORITY_IMMEDIATE ↔ 90 ≤ s) ∧
    (getPriorityCategory s = PRIORITY_HIGH ↔ 75 ≤ s ∧ s < 90) ∧
    (getPriorityCategory s = PRIORITY_MEDIUM ↔ 50 ≤ s ∧ s < 75) ∧
    (getPriorityCategory s = PRIORITY_LOW ↔ s < 50) := by
  unfold getPriorityCategory
  split_ifs with hA hB hC <;>
    refine ⟨?_, ?_, ?_, ?_⟩ <;>
    constructor <;>
    intro h <;>
    first
      | rfl
      | omega
      | (exact absurd h (by decide))
      | (exfalso; omega)

/-- C5: every record output by `score_leads` has `0 ≤ priority_score ≤ 200`
(clamped after summing the rule deltas), and `priority_category` is exactly
determined by the 90 / 75 / 50 boundaries. -/
theorem c5_score_bounds_and_categories :
    ∀ (cfg : ScoringConfig) (businesses : List Business) (b : Business),
      b ∈ scoreLeads cfg businesses →
      0 ≤ b.priority_score ∧ b.priority_score ≤ 200 ∧
      b.priority_score = max 0 (min (rawScore cfg b) 200) ∧
      (b.priority_category = PRIORITY_IMMEDIATE ↔ 90 ≤ b.priority_score) ∧
      (b.priority_category = PRIORITY_HIGH ↔
        75 ≤ b.priority_score ∧ b.priority_score < 90) ∧
      (b.priority_category = PRIORITY_MEDIUM ↔
        50 ≤ b.priority_score ∧ b.priority_score < 75) ∧
      (b.priority_category = PRIORITY_LOW ↔ b.priority_score < 50) := by
  intro cfg businesses b hb
  rw [scoreLeads, List.mem_mergeSort] at hb
  rcases List.mem_map.mp hb with ⟨a, -, rfl⟩
  have hs : (scoreBusiness cfg a).priority_score =
      max 0 (min (rawScore cfg a) 200) := by
    simp [scoreBusiness, calculatePriorityScore_eq]
  have hraw : rawScore cfg (scoreBusiness cfg a) = rawScore cfg a := rfl
  have hc : (scoreBusiness cfg a).priority_category =
      getPriorityCategory ((scoreBusiness cfg a).priority_score) := by
    simp [scoreBusiness, calculatePriorityScore_eq]
  have hspec := getPriorityCategory_spec ((scoreBusiness cfg a).priority_score)
  refine ⟨?_, ?_, ?_, ?_, ?_, ?_, ?_⟩
  · rw [hs]; exact le_max_left 0 _
  · rw [hs]
    exact max_le (by norm_num) ((min_le_right _ _).trans (by norm_num))
  · rw [hs, hraw]
  · rw [hc]; exact hspec.1
  · rw [hc]; exact hspec.2.1
  · rw [hc]; exact hspec.2.2.1
  · rw [hc]; exact hspec.2.2.2

/-- Witness for C5 at a concrete input: the spec's worked example
(no website, no email, no social, rating 4.8 → score 175, IMMEDIATE). -/
theorem c5_score_bounds_and_categories_witness :
    0 ≤ (scoreBusiness defaultConfig ratedLead).priority_score ∧
    (scoreBusiness defaultConfig ratedLead).priority_score ≤ 200 ∧
    ((scoreBusiness defaultConfig ratedLead).priority_category =
        PRIORITY_IMMEDIATE ↔
      90 ≤ (scoreBusiness defaultConfig ratedLead).priority_score) := by
  have h := c5_score_bounds_and_categories defaultConfig [ratedLead]
    (scoreBusiness defaultConfig ratedLead)
    (by rw [scoreLeads, List.mem_mergeSort]
        exact List.mem_map_of_mem _ (by simp))
  exact ⟨h.1, h.2.1, h.2.2.2.1⟩

/-- `_add_note` never shortens the notes string. -/
theorem addNote_length_le (s n : String) : s.length ≤ (addNote s n).length := by
  unfold addNote
  split_ifs with h
  · simp [String.length_append]
    omega
  · simp only [ne_eq, not_not] at h
    subst h
    simp

/-- `_add_note` with a nonempty note strictly lengthens the notes string. -/
theorem addNote_length_lt (s n : String) (hn : n ≠ "") :
    s.length < (addNote s n).length := by
  have hpos : 0 < n.length := by
    cases n with
    | mk data =>
      cases data with
      | nil => simp at hn
      | cons c cs => simp [String.length]
  unfold addNote
  split_ifs with h
  · simp [String.length_append]
    omega
  · simp only [ne_eq, not_not] at h
    subst h
    simpa using hpos

/-- Folding `_add_note` over a nonempty list of nonempty notes strictly
lengthens the notes string. -/
theorem foldl_addNote_length_lt :
    ∀ (l : List String) (s : String), l ≠ [] → (∀ n ∈ l, n ≠ "") →
      s.length < (List.foldl addNote s l).length := by
  intro l
  induction l with
  | nil => simp
  | cons n l ih =>
    intro s _ hne
    rcases eq_or_ne l [] with rfl | hl
    · simpa using addNote_length_lt s n (hne n (by simp))
    · have h1 := ih (addNote s n) hl (fun m hm => hne m (by simp [hm]))
      have h2 := addNote_length_le s n
      simp only [List.foldl_cons]
      omega

/-- Every note text a rule can trigger is nonempty. -/
theorem triggeredNotes_ne_empty (b : Business) :
    ∀ n ∈ triggeredNotes b, n ≠ "" := by
  intro n hn hemp
  subst hemp
  unfold triggeredNotes at hn
  rcases hr : b.google_rating with _ | r <;>
    simp only [hr] at hn <;> split_ifs at hn <;> revert hn <;> decide

/-- Scoring writes only `notes`, `priority_score`, `priority_category`, so
the rule triggers of a scored record are those of the original. -/
theorem triggeredNotes_scoreBusiness (cfg : ScoringConfig) (b : Business) :
    triggeredNotes (scoreBusiness cfg b) = triggeredNotes b := rfl

/-- C10: `score_leads` is not idempotent on `notes`: re-scoring an
already-scored record (any record triggering at least one note-bearing
rule) keeps `priority_score` and `priority_category` but appends every
triggered rule's note text a second time, strictly growing the audit
trail. -/
theorem c10_rescoring_appends_notes :
    ∀ (cfg : ScoringConfig) (b : Business),
      triggeredNotes b ≠ [] →
      (scoreBusiness cfg (scoreBusiness cfg b)).priority_score =
          (scoreBusiness cfg b).priority_score ∧
      (scoreBusiness cfg (scoreBusiness cfg b)).priority_category =
          (scoreBusiness cfg b).priority_category ∧
      (scoreBusiness cfg (scoreBusiness cfg b)).notes =
          List.foldl addNote (scoreBusiness cfg b).notes (triggeredNotes b) ∧
      (scoreBusiness cfg b).notes.length <
          (scoreBusiness cfg (scoreBusiness cfg b)).notes.length := by
  intro cfg b hne
  have h1 : (scoreBusiness cfg b).priority_score =
      max 0 (min (rawScore cfg b) 200) := by
    simp [scoreBusiness, calculatePriorityScore_eq]
  have h2 : (scoreBusiness cfg (scoreBusiness cfg b)).priority_score =
      max 0 (min (rawScore cfg (scoreBusiness cfg b)) 200) := by
    simp [scoreBusiness, calculatePriorityScore_eq]
  have hraw : rawScore cfg (scoreBusiness cfg b) = rawScore cfg b := rfl
  have hcat1 : (scoreBusiness cfg b).priority_category =
      getPriorityCategory ((scoreBusiness cfg b).priority_score) := by
    simp [scoreBusiness, calculatePriorityScore_eq]
  have hcat2 : (scoreBusiness cfg (scoreBusiness cfg b)).priority_category =
      getPriorityCategory
        ((scoreBusiness cfg (scoreBusiness cfg b)).priority_score) := by
    simp [scoreBusiness, calculatePriorityScore_eq]
  have e1 : (scoreBusiness cfg (scoreBusiness cfg b)).notes =
      (calculatePriorityScore cfg (scoreBusiness cfg b)).2 := rfl
  have hnotes : (scoreBusiness cfg (scoreBusiness cfg b)).notes =
      List.foldl addNote (scoreBusiness cfg b).notes (triggeredNotes b) := by
    rw [e1, calculatePriorityScore_eq, triggeredNotes_scoreBusiness]
  have hscore : (scoreBusiness cfg (scoreBusiness cfg b)).priority_score =
      (scoreBusiness cfg b).priority_score := by
    rw [h1, h2, hraw]
  refine ⟨hscore, ?_, hnotes, ?_⟩
  · rw [hcat1, hcat2, hscore]
  · rw [hnotes]
    exact foldl_addNote_length_lt (triggeredNotes b) _ hne (triggeredNotes_ne_empty b)

/-- Witness for C10 at a concrete input: re-scoring the worked example keeps
score 175 / IMMEDIATE but duplicates the three note texts. -/
theorem c10_rescoring_appends_notes_witness :
    (scoreBusiness defaultConfig (scoreBusiness defaultConfig ratedLead)).priority_score =
        (scoreBusiness defaultConfig ratedLead).priority_score ∧
      (scoreBusiness defaultConfig ratedLead).notes.length <
        (scoreBusiness defaultConfig (scoreBusiness defaultConfig ratedLead)).notes.length := by
  have h := c10_rescoring_appends_notes defaultConfig ratedLead (by decide)
  exact ⟨h.1, h.2.2.2⟩

/-- C7 counterexample: the accent/case-variant pair is NOT merged at
threshold 0.9 — the output batch has length 2, not 1.  The deduplicator
only lowercases; it never strips diacritics, and the name similarity is
7/9 < 0.9. -/
theorem c7_no_merge_counterexample :
    (deduplicate (mkRat 9 10) [kavarnaRec1, kavarnaRec2]).length ≠ 1 := by
  decide

/-- C7 amended: at threshold 0.9 the deduplicator leaves the two records
unmerged: `.lower()` keeps the diacritics, the name similarity is exactly
7/9 < 9/10, and the output batch is the unchanged two-record list. -/
theorem c7_diacritics_below_threshold :
    calculateSimilarity (lowerStrip kavarnaRec1.business_name)
        (lowerStrip kavarnaRec2.business_name) = mkRat 7 9 ∧
      mkRat 7 9 < mkRat 9 10 ∧
      deduplicate (mkRat 9 10) [kavarnaRec1, kavarnaRec2] =
        [kavarnaRec1, kavarnaRec2] := by
  exact ⟨by decide, by decide, by decide⟩

/-- C4 counterexample: two records matched by exact phone are NOT merged —
the later record is dropped outright and its unique email is discarded,
contradicting the claim that every matched pair is merged. -/
theorem c4_exact_match_drops_counterexample :
    deduplicate (mkRat 9 10) [phoneDup1, phoneDup2] = [phoneDup1] ∧
      phoneDup2.email = "omega@example.cz" ∧
      phoneDup1.email = "" ∧
      (mergeDuplicates phoneDup1 phoneDup2).email = "omega@example.cz" ∧
      deduplicate (mkRat 9 10) [phoneDup1, phoneDup2] ≠
        [mergeDuplicates phoneDup1 phoneDup2] := by
  exact ⟨by decide, rfl, rfl, by decide, by decide⟩

/-- The generic fill loop keeps the base's value unless it is empty. -/
theorem fillStr_spec (base source : String) :
    fillStr base source = if base ≠ "" then base else source := by
  unfold fillStr
  rcases eq_or_ne base "" with h1 | h1 <;>
    rcases eq_or_ne source "" with h2 | h2 <;> simp [h1, h2]

/-- Merging two present nonzero ratings keeps the higher one. -/
theorem mergeRatingVal_some (x y : Rat) (hx : x ≠ 0) (hy : y ≠ 0) :
    mergeRatingVal (some x) (some y) = some (max x y) := by
  rcases le_or_lt y x with h | h
  · simp [mergeRatingVal, truthyRat, hx, hy, not_lt.mpr h, max_eq_left h]
  · simp [mergeRatingVal, truthyRat, hx, hy, h, max_eq_right h.le]

/-- Merging two present nonnegative quality scores keeps the higher one. -/
theorem mergeWqsVal_some (x y : Int) (hx : 0 ≤ x) (hy : 0 ≤ y) :
    mergeWqsVal (some x) (some y) = some (max x y) := by
  rcases eq_or_ne x 0 with rfl | hx0
  · rcases eq_or_ne y 0 with rfl | hy0
    · simp [mergeWqsVal, truthyInt]
    · have hmax : max (0 : Int) y = y := max_eq_right hy
      simp [mergeWqsVal, truthyInt, hy0, hmax]
  · rcases le_or_lt y x with h | h
    · simp [mergeWqsVal, truthyInt, hx0, not_lt.mpr h, max_eq_left h]
    · simp [mergeWqsVal, truthyInt, hx0, h, max_eq_right h.le]

/-- The merged activity list carries exactly the union of both sides. -/
theorem mergeActivities_mem (xs ys : List String) (a : String) :
    a ∈ mergeActivities xs ys ↔ a ∈ xs ∨ a ∈ ys := by
  unfold mergeActivities
  split_ifs with h
  · rcases h with ⟨-, hx⟩
    subst hx
    simp [List.mem_dedup]
  · simp [List.mem_dedup]

/-- C4 amended: only FUZZY-matched pairs are merged, and `_merge_duplicates`
implements the described policy — the record with more non-empty fields is
the base, each empty field is filled from the other record, present nonzero
ratings / quality scores keep the higher value, and the activities list is
the set union.  Pairs matched by exact IČO or exact phone are instead
dropped: the earlier record survives unchanged and the later record's
unique field values are discarded. -/
theorem c4_fuzzy_merge_policy_exact_drop :
    (∀ b1 b2 : Business,
      completeness b2 ≤ completeness b1 →
        (mergeDuplicates b1 b2).business_name =
            (if b1.business_name ≠ "" then b1.business_name else b2.business_name) ∧
        (mergeDuplicates b1 b2).ico = (if b1.ico ≠ "" then b1.ico else b2.ico) ∧
        (mergeDuplicates b1 b2).phone = (if b1.phone ≠ "" then b1.phone else b2.phone) ∧
        (mergeDuplicates b1 b2).address =
            (if b1.address ≠ "" then b1.address else b2.address) ∧
        (mergeDuplicates b1 b2).city = (if b1.city ≠ "" then b1.city else b2.city) ∧
        (mergeDuplicates b1 b2).email = (if b1.email ≠ "" then b1.email else b2.email) ∧
        (mergeDuplicates b1 b2).website =
            (if b1.website ≠ "" then b1.website else b2.website) ∧
        (mergeDuplicates b1 b2).instagram =
            (if b1.instagram ≠ "" then b1.instagram else b2.instagram) ∧
        (mergeDuplicates b1 b2).facebook =
            (if b1.facebook ≠ "" then b1.facebook else b2.facebook) ∧
        (mergeDuplicates b1 b2).notes = (if b1.notes ≠ "" then b1.notes else b2.notes)) ∧
    (∀ b1 b2 : Business,
      completeness b1 < completeness b2 →
        (mergeDuplicates b1 b2).business_name =
            (if b2.business_name ≠ "" then b2.business_name else b1.business_name) ∧
        (mergeDuplicates b1 b2).phone = (if b2.phone ≠ "" then b2.phone else b1.phone) ∧
        (mergeDuplicates b1 b2).email = (if b2.email ≠ "" then b2.email else b1.email) ∧
        (mergeDuplicates b1 b2).website =
            (if b2.website ≠ "" then b2.website else b1.website)) ∧
    (∀ (b1 b2 : Business) (v1 v2 : Rat),
      b1.google_rating = some v1 → b2.google_rating = some v2 → v1 ≠ 0 → v2 ≠ 0 →
      (mergeDuplicates b1 b2).google_rating = some (max v1 v2)) ∧
    (∀ (b1 b2 : Business) (q1 q2 : Int),
      b1.website_quality_score = some q1 → b2.website_quality_score = some q2 →
      0 ≤ q1 → 0 ≤ q2 →
      (mergeDuplicates b1 b2).website_quality_score = some (max q1 q2)) ∧
    (∀ (b1 b2 : Business) (a : String),
      a ∈ (mergeDuplicates b1 b2).business_activities ↔
        a ∈ b1.business_activities ∨ a ∈ b2.business_activities) ∧
    deduplicate (mkRat 9 10) [fuzzyDup1, fuzzyDup2] =
        [mergeDuplicates fuzzyDup1 fuzzyDup2] ∧
    deduplicate (mkRat 9 10) [icoDup1, icoDup2] = [icoDup1] ∧
    deduplicate (mkRat 9 10) [phoneDup1, phoneDup2] = [phoneDup1] := by
  refine ⟨?_, ?_, ?_, ?_, ?_, by decide, by decide, by decide⟩
  · intro b1 b2 h
    have h' : ¬ (completeness b2 > completeness b1) := by omega
    simp only [mergeDuplicates, if_neg h']
    exact ⟨fillStr_spec _ _, fillStr_spec _ _, fillStr_spec _ _, fillStr_spec _ _,
      fillStr_spec _ _, fillStr_spec _ _, fillStr_spec _ _, fillStr_spec _ _,
      fillStr_spec _ _, fillStr_spec _ _⟩
  · intro b1 b2 h
    have h' : completeness b2 > completeness b1 := h
    simp only [mergeDuplicates, if_pos h']
    exact ⟨fillStr_spec _ _, fillStr_spec _ _, fillStr_spec _ _, fillStr_spec _ _⟩
  · intro b1 b2 v1 v2 h1 h2 hv1 hv2
    by_cases hc : completeness b2 > completeness b1
    · simp only [mergeDuplicates, if_pos hc]
      rw [h1, h2, mergeRatingVal_some v2 v1 hv2 hv1, max_comm]
    · simp only [mergeDuplicates, if_neg hc]
      rw [h1, h2, mergeRatingVal_some v1 v2 hv1 hv2]
  · intro b1 b2 q1 q2 h1 h2 hq1 hq2
    by_cases hc : completeness b2 > completeness b1
    · simp only [mergeDuplicates, if_pos hc]
      rw [h1, h2, mergeWqsVal_some q2 q1 hq2 hq1, max_comm]
    · simp only [mergeDuplicates, if_neg hc]
      rw [h1, h2, mergeWqsVal_some q1 q2 hq1 hq2]
  · intro b1 b2 a
    by_cases hc : completeness b2 > completeness b1
    · simp only [mergeDuplicates, if_pos hc]
      rw [mergeActivities_mem]
      tauto
    · simp only [mergeDuplicates, if_neg hc]
      rw [mergeActivities_mem]

/-- Witness for C4's amended theorem at concrete inputs: the fill rule on
the phone-duplicate pair and the higher-rating rule on two rated records. -/
theorem c4_fuzzy_merge_policy_exact_drop_witness :
    (mergeDuplicates phoneDup1 phoneDup2).email =
        (if phoneDup1.email ≠ "" then phoneDup1.email else phoneDup2.email) ∧
      (mergeDuplicates ratedDupA ratedDupB).google_rating =
        some (max (mkRat 4 1) (mkRat 9 2)) := by
  constructor
  · exact ((c4_fuzzy_merge_policy_exact_drop.1 phoneDup1 phoneDup2
      (by decide)).2.2.2.2.2.1)
  · exact c4_fuzzy_merge_policy_exact_drop.2.2.1 ratedDupA ratedDupB
      (mkRat 4 1) (mkRat 9 2) rfl rfl (by decide) (by decide)

/-! ### Lemmas on the string utilities, towards the normalization claims -/

/-- Every lowercase image in the case table is itself a fixed point. -/
theorem lowerPairs_snd_fixed : ∀ p ∈ lowerPairs, lowerChar p.2 = p.2 := by
  decide

/-- `str.lower` is idempotent characterwise. -/
theorem lowerChar_idem (c : Char) : lowerChar (lowerChar c) = lowerChar c := by
  unfold lowerChar
  cases h : lowerPairs.find? (fun p => p.1 = c) with
  | none => rw [h]
  | some p =>
    have hp := List.mem_of_find?_eq_some h
    have := lowerPairs_snd_fixed p hp
    unfold lowerChar at this
    exact this

/-- Characters of a lowercased string are fixed by `lowerChar`. -/
theorem mem_lowerL_fixed {c : Char} {s : List Char} (h : c ∈ lowerL s) :
    lowerChar c = c := by
  rcases List.mem_map.mp h with ⟨a, -, rfl⟩
  exact lowerChar_idem a

/-- Mapping a pointwise-fixed function is the identity. -/
theorem lowerL_eq_self {s : List Char} (h : ∀ c ∈ s, lowerChar c = c) :
    lowerL s = s := by
  induction s with
  | nil => rfl
  | cons c cs ih =>
    simp only [lowerL, List.map_cons] at *
    rw [h c (by simp), ih (fun d hd => h d (by simp [hd]))]

/-- Characters produced by `replaceFuel` come from the input or the
replacement. -/
theorem mem_replaceFuel {pat repl : List Char} :
    ∀ (fuel : Nat) (s : List Char) (c : Char),
      c ∈ replaceFuel pat repl fuel s → c ∈ s ∨ c ∈ repl := by
  intro fuel
  induction fuel with
  | zero => intro s c h; exact Or.inl h
  | succ fuel ih =>
    intro s c h
    cases s with
    | nil => simp [replaceFuel] at h
    | cons d ds =>
      rw [replaceFuel] at h
      split_ifs at h with hp
      · rcases List.mem_append.mp h with h1 | h1
        · exact Or.inr h1
        · rcases ih _ _ h1 with h2 | h2
          · exact Or.inl (List.mem_of_mem_drop h2)
          · exact Or.inr h2
      · rcases List.mem_cons.mp h with rfl | h1
        · exact Or.inl (List.mem_cons_self _ _)
        · rcases ih _ _ h1 with h2 | h2
          · exact Or.inl (List.mem_cons_of_mem _ h2)
          · exact Or.inr h2

/-- Characters produced by `str.replace` come from the input or the
replacement. -/
theorem mem_replaceL {s pat repl : List Char} {c : Char}
    (h : c ∈ replaceL s pat repl) : c ∈ s ∨ c ∈ repl := by
  unfold replaceL at h
  cases pat with
  | nil => exact Or.inl h
  | cons p ps => exact mem_replaceFuel _ _ _ h

/-- `str.replace` is the identity when the pattern does not occur. -/
theorem replaceFuel_no_op {pat repl : List Char} :
    ∀ (fuel : Nat) (s : List Char), containsSub pat s = false →
      replaceFuel pat repl fuel s = s := by
  intro fuel
  induction fuel with
  | zero => intro s _; rfl
  | succ fuel ih =>
    intro s hc
    cases s with
    | nil => rfl
    | cons d ds =>
      rw [containsSub, Bool.or_eq_false_iff] at hc
      rw [replaceFuel, if_neg (by simp [hc.1]), ih ds hc.2]

/-- `str.replace` is the identity when the pattern does not occur. -/
theorem replaceL_no_op {s pat repl : List Char} (h : containsSub pat s = false) :
    replaceL s pat repl = s := by
  unfold replaceL
  cases pat with
  | nil => rfl
  | cons p ps => exact replaceFuel_no_op _ _ h

/-- Replacing the single character `a` by a string not containing it leaves
no occurrence of `a` (enough fuel provided). -/
theorem replaceFuel_single_not_mem {a : Char} {repl : List Char}
    (hrepl : a ∉ repl) :
    ∀ (fuel : Nat) (s : List Char), s.length ≤ fuel →
      a ∉ replaceFuel [a] repl fuel s := by
  intro fuel
  induction fuel with
  | zero =>
    intro s hs
    interval_cases hlen : s.length
    · rw [List.length_eq_zero] at hlen
      subst hlen
      simp [replaceFuel]
  | succ fuel ih =>
    intro s hs
    cases s with
    | nil => simp [replaceFuel]
    | cons d ds =>
      rw [replaceFuel]
      split_ifs with hp
      · intro hmem
        rcases List.mem_append.mp hmem with h1 | h1
        · exact hrepl h1
        · have hd : (d :: ds).drop ([a].length) = ds := by simp
          rw [hd] at h1
          exact ih ds (by simpa using hs) h1
      · have hda : d ≠ a := by
          intro hda
          subst hda
          exact hp (by simp [List.isPrefixOf])
        intro hmem
        rcases List.mem_cons.mp hmem with rfl | h1
        · exact hda rfl
        · exact ih ds (by simpa using hs) h1

/-- If `a` does not occur in `s`, replacing it is the identity. -/
theorem replaceFuel_single_no_op {a : Char} {repl : List Char} :
    ∀ (fuel : Nat) (s : List Char), a ∉ s →
      replaceFuel [a] repl fuel s = s := by
  intro fuel
  induction fuel with
  | zero => intro s _; rfl
  | succ fuel ih =>
    intro s hs
    cases s with
    | nil => rfl
    | cons d ds =>
      simp only [List.mem_cons, not_or] at hs
      have hda : ¬ ([a].isPrefixOf (d :: ds) = true) := by
        simp only [List.isPrefixOf, Bool.and_eq_true, beq_iff_eq]
        intro hc
        exact hs.1 hc.1
      rw [replaceFuel, if_neg hda, ih ds hs.2]

/-- Tokens produced by `str.split()` are nonempty, whitespace-free, and made
of characters of the input (or of the accumulator). -/
theorem splitWSAux_tokens :
    ∀ (s acc : List Char), (∀ c ∈ acc, isSpaceChar c = false) →
      ∀ t ∈ splitWSAux s acc, t ≠ [] ∧
        ∀ c ∈ t, isSpaceChar c = false ∧ (c ∈ s ∨ c ∈ acc) := by
  intro s
  induction s with
  | nil =>
    intro acc hacc t ht
    rw [splitWSAux] at ht
    split_ifs at ht with h
    · simp at ht
    · rcases List.mem_singleton.mp ht with rfl
      refine ⟨by simpa using h, ?_⟩
      intro c hc
      rw [List.mem_reverse] at hc
      exact ⟨hacc c hc, Or.inr hc⟩
  | cons d ds ih =>
    intro acc hacc t ht
    rw [splitWSAux] at ht
    split_ifs at ht with hsp hae
    · -- space, empty accumulator
      rcases ih [] (by simp) t ht with ⟨h1, h2⟩
      refine ⟨h1, fun c hc => ⟨(h2 c hc).1, ?_⟩⟩
      rcases (h2 c hc).2 with h3 | h3
      · exact Or.inl (List.mem_cons_of_mem _ h3)
      · simp at h3
    · -- space, nonempty accumulator: emit the token
      rcases List.mem_cons.mp ht with rfl | ht'
      · refine ⟨by simpa using hae, ?_⟩
        intro c hc
        rw [List.mem_reverse] at hc
        exact ⟨hacc c hc, Or.inr hc⟩
      · rcases ih [] (by simp) t ht' with ⟨h1, h2⟩
        refine ⟨h1, fun c hc => ⟨(h2 c hc).1, ?_⟩⟩
        rcases (h2 c hc).2 with h3 | h3
        · exact Or.inl (List.mem_cons_of_mem _ h3)
        · simp at h3
    · -- non-space: push onto the accumulator
      have hacc' : ∀ c ∈ d :: acc, isSpaceChar c = false := by
        intro c hc
        rcases List.mem_cons.mp hc with rfl | hc'
        · simpa using hsp
        · exact hacc c hc'
      rcases ih (d :: acc) hacc' t ht with ⟨h1, h2⟩
      refine ⟨h1, fun c hc => ⟨(h2 c hc).1, ?_⟩⟩
      rcases (h2 c hc).2 with h3 | h3
      · exact Or.inl (List.mem_cons_of_mem _ h3)
      · rcases List.mem_cons.mp h3 with rfl | h4
        · exact Or.inl (List.mem_cons_self _ _)
        · exact Or.inr h4

/-- Scanning a whitespace-free chunk just accumulates it reversed. -/
theorem splitWSAux_append_nonspace :
    ∀ (t acc r : List Char), (∀ c ∈ t, isSpaceChar c = false) →
      splitWSAux (t ++ r) acc = splitWSAux r (t.reverse ++ acc) := by
  intro t
  induction t with
  | nil => intro acc r _; simp
  | cons d ds ih =>
    intro acc r ht
    have hd : isSpaceChar d = false := ht d (by simp)
    rw [List.cons_append, splitWSAux, if_neg (by simp [hd])]
    rw [ih (d :: acc) r (fun c hc => ht c (by simp [hc]))]
    simp

/-- `' '.join` of nonempty whitespace-free tokens splits back to the same
tokens. -/
theorem splitWS_joinSpace :
    ∀ ts : List (List Char),
      (∀ t ∈ ts, t ≠ [] ∧ ∀ c ∈ t, isSpaceChar c = false) →
      splitWS (joinSpace ts) = ts := by
  intro ts
  induction ts with
  | nil => intro _; rfl
  | cons t ts ih =>
    intro h
    rcases h t (by simp) with ⟨ht1, ht2⟩
    cases ts with
    | nil =>
      show splitWSAux (joinSpace [t]) [] = [t]
      have : joinSpace [t] = t ++ [] := by simp [joinSpace]
      rw [this, splitWSAux_append_nonspace t [] [] ht2, splitWSAux,
        if_neg (by simpa using ht1)]
      simp
    | cons t₂ ts₂ =>
      show splitWSAux (joinSpace (t :: t₂ :: ts₂)) [] = t :: t₂ :: ts₂
      rw [joinSpace, splitWSAux_append_nonspace t _ _ ht2]
      rw [splitWSAux, if_pos (by simp [isSpaceChar]), if_neg (by simpa using ht1)]
      have := ih (fun u hu => h u (by simp [hu]))
      simp only [List.append_nil, List.reverse_reverse]
      exact congrArg (t :: ·) this

/-- `' '.join` of nonempty tokens is nonempty. -/
theorem joinSpace_ne_nil :
    ∀ (t : List Char) (ts : List (List Char)), t ≠ [] →
      joinSpace (t :: ts) ≠ [] := by
  intro t ts ht
  cases ts with
  | nil => simpa [joinSpace] using ht
  | cons t₂ ts₂ =>
    rw [joinSpace]
    simp [ht]

/-- The last character of `' '.join` of nonempty whitespace-free tokens is
not whitespace. -/
theorem joinSpace_getLast_nonspace :
    ∀ ts : List (List Char),
      (∀ t ∈ ts, t ≠ [] ∧ ∀ c ∈ t, isSpaceChar c = false) →
      ∀ c, (joinSpace ts).getLast? = some c → isSpaceChar c = false := by
  intro ts
  induction ts with
  | nil => intro _ c hc; simp [joinSpace] at hc
  | cons t ts ih =>
    intro h c hc
    cases ts with
    | nil =>
      rcases h t (by simp) with ⟨-, ht2⟩
      exact ht2 c (List.mem_of_mem_getLast? hc)
    | cons t₂ ts₂ =>
      rw [joinSpace] at hc
      have hne : (' ' :: joinSpace (t₂ :: ts₂)) ≠ [] := by simp
      rw [List.getLast?_append_of_ne_nil _ hne] at hc
      have hne₂ : joinSpace (t₂ :: ts₂) ≠ [] :=
        joinSpace_ne_nil t₂ ts₂ (h t₂ (by simp)).1
      have : (' ' :: joinSpace (t₂ :: ts₂)) = [' '] ++ joinSpace (t₂ :: ts₂) := rfl
      rw [this, List.getLast?_append_of_ne_nil _ hne₂] at hc
      exact ih (fun u hu => h u (by simp [hu])) c hc

/-- The first character of `' '.join` of nonempty whitespace-free tokens is
not whitespace, so `lstrip` does nothing. -/
theorem dropWhile_joinSpace :
    ∀ ts : List (List Char),
      (∀ t ∈ ts, t ≠ [] ∧ ∀ c ∈ t, isSpaceChar c = false) →
      (joinSpace ts).dropWhile isSpaceChar = joinSpace ts := by
  intro ts h
  cases ts with
  | nil => rfl
  | cons t ts =>
    rcases h t (by simp) with ⟨ht1, ht2⟩
    cases htc : t with
    | nil => exact absurd htc ht1
    | cons c cs =>
      subst htc
      have hc : isSpaceChar c = false := ht2 c (by simp)
      cases ts with
      | nil => simp [joinSpace, List.dropWhile_cons, hc]
      | cons t₂ ts₂ =>
        rw [joinSpace]
        simp [List.dropWhile_cons, hc]

/-- `strip` does nothing to `' '.join` of nonempty whitespace-free tokens. -/
theorem stripL_joinSpace :
    ∀ ts : List (List Char),
      (∀ t ∈ ts, t ≠ [] ∧ ∀ c ∈ t, isSpaceChar c = false) →
      stripL (joinSpace ts) = joinSpace ts := by
  intro ts h
  unfold stripL
  rw [dropWhile_joinSpace ts h]
  cases hrev : (joinSpace ts).reverse with
  | nil =>
    have h0 : joinSpace ts = [] := by simpa using hrev
    simp [h0]
  | cons c cs =>
    have hlast : (joinSpace ts).getLast? = some c := by
      rw [← List.head?_reverse, hrev]
      rfl
    have hc : isSpaceChar c = false :=
      joinSpace_getLast_nonspace ts h c hlast
    rw [List.dropWhile_cons]
    rw [if_neg (by simp [hc])]
    rw [← hrev, List.reverse_reverse]

/-- Characters of `' '.join` come from the tokens or are the space. -/
theorem mem_joinSpace :
    ∀ (ts : List (List Char)) (c : Char), c ∈ joinSpace ts →
      (∃ t ∈ ts, c ∈ t) ∨ c = ' ' := by
  intro ts
  induction ts with
  | nil => intro c hc; simp [joinSpace] at hc
  | cons t ts ih =>
    intro c hc
    cases ts with
    | nil => exact Or.inl ⟨t, by simp, hc⟩
    | cons t₂ ts₂ =>
      rw [joinSpace] at hc
      rcases List.mem_append.mp hc with h1 | h1
      · exact Or.inl ⟨t, by simp, h1⟩
      · rcases List.mem_cons.mp h1 with rfl | h2
        · exact Or.inr rfl
        · rcases ih c h2 with ⟨u, hu, hcu⟩ | h3
          · exact Or.inl ⟨u, by simp [hu], hcu⟩
          · exact Or.inr h3

/-- If the single character `a` does not occur, replacing it is the
identity. -/
theorem replaceL_single_no_op {a : Char} {repl s : List Char} (h : a ∉ s) :
    replaceL s [a] repl = s :=
  replaceFuel_single_no_op s.length s h

/-- The let-chain of `normalize_name` spelled out (nonempty input). -/
theorem normalizeNameL_eq (name : List Char) (h : ¬ name = []) :
    normalizeNameL name =
      stripL (joinSpace (splitWS (replaceL (replaceL (replaceL (replaceL
        (replaceL (replaceL (replaceL (lowerL name) "restaurace".data [])
        "restaurant".data []) "kavárna".data []) "café".data [])
        "cafe".data []) ['&'] []) ['-'] [' ']))) := by
  rw [normalizeNameL, if_neg h]
  rfl

/-- `normalize_name` is idempotent on every input whose normalized form
contains none of the removed tokens (list level). -/
theorem normalizeNameL_idem_of_token_free (s : List Char)
    (h1 : containsSub "restaurace".data (normalizeNameL s) = false)
    (h2 : containsSub "restaurant".data (normalizeNameL s) = false)
    (h3 : containsSub "kavárna".data (normalizeNameL s) = false)
    (h4 : containsSub "café".data (normalizeNameL s) = false)
    (h5 : containsSub "cafe".data (normalizeNameL s) = false) :
    normalizeNameL (normalizeNameL s) = normalizeNameL s := by
  rcases eq_or_ne s [] with rfl | hs
  · rfl
  have hy7 := normalizeNameL_eq s hs
  set a0 := lowerL s with ha0
  set a1 := replaceL a0 "restaurace".data [] with ha1
  set a2 := replaceL a1 "restaurant".data [] with ha2
  set a3 := replaceL a2 "kavárna".data [] with ha3
  set a4 := replaceL a3 "café".data [] with ha4
  set a5 := replaceL a4 "cafe".data [] with ha5
  set a6 := replaceL a5 ['&'] [] with ha6
  set a7 := replaceL a6 ['-'] [' '] with ha7
  set y := normalizeNameL s with hyd
  -- tokens of the final split are nonempty, whitespace-free, chars of a7
  have htok := splitWSAux_tokens a7 [] (by simp)
  have htok' : ∀ t ∈ splitWS a7, t ≠ [] ∧ ∀ c ∈ t, isSpaceChar c = false :=
    fun t ht => ⟨(htok t ht).1, fun c hc => ((htok t ht).2 c hc).1⟩
  have hyw : y = joinSpace (splitWS a7) := by
    rw [hy7]
    exact stripL_joinSpace _ htok'
  have hsplit : splitWS y = splitWS a7 := by
    rw [hyw]
    exact splitWS_joinSpace _ htok'
  have hmemy : ∀ c ∈ y, c ∈ a7 ∨ c = ' ' := by
    intro c hc
    rw [hyw] at hc
    rcases mem_joinSpace _ c hc with ⟨t, ht, hct⟩ | h
    · rcases ((htok t ht).2 c hct).2 with h' | h'
      · exact Or.inl h'
      · simp at h'
    · exact Or.inr h
  -- character provenance back through the replacement chain
  have hmem7 : ∀ c ∈ a7, c ∈ a6 ∨ c = ' ' := by
    intro c hc
    rcases mem_replaceL hc with h | h
    · exact Or.inl h
    · rcases List.mem_singleton.mp h with rfl
      exact Or.inr rfl
  have hmem6 : ∀ c ∈ a6, c ∈ a5 := by
    intro c hc
    rcases mem_replaceL hc with h | h
    · exact h
    · simp at h
  have hmem5 : ∀ c ∈ a5, c ∈ a4 := by
    intro c hc
    rcases mem_replaceL hc with h | h
    · exact h
    · simp at h
  have hmem4 : ∀ c ∈ a4, c ∈ a3 := by
    intro c hc
    rcases mem_replaceL hc with h | h
    · exact h
    · simp at h
  have hmem3 : ∀ c ∈ a3, c ∈ a2 := by
    intro c hc
    rcases mem_replaceL hc with h | h
    · exact h
    · simp at h
  have hmem2 : ∀ c ∈ a2, c ∈ a1 := by
    intro c hc
    rcases mem_replaceL hc with h | h
    · exact h
    · simp at h
  have hmem1 : ∀ c ∈ a1, c ∈ a0 := by
    intro c hc
    rcases mem_replaceL hc with h | h
    · exact h
    · simp at h
  -- every character of the normalized form is lowercase-fixed
  have hfix : ∀ c ∈ y, lowerChar c = c := by
    intro c hc
    rcases hmemy c hc with h7 | hsp
    · rcases hmem7 c h7 with h6 | hsp
      · exact mem_lowerL_fixed
          (hmem1 c (hmem2 c (hmem3 c (hmem4 c (hmem5 c (hmem6 c h6))))))
      · subst hsp; decide
    · subst hsp; decide
  -- no '&' and no '-' survive
  have hamp6 : '&' ∉ a6 := by
    rw [ha6]
    exact replaceFuel_single_not_mem (by simp) a5.length a5 le_rfl
  have hamp : '&' ∉ y := by
    intro hmem
    rcases hmemy _ hmem with h7 | h
    · rcases hmem7 _ h7 with h6 | h
      · exact hamp6 h6
      · exact absurd h (by decide)
    · exact absurd h (by decide)
  have hdash7 : '-' ∉ a7 := by
    rw [ha7]
    exact replaceFuel_single_not_mem (by decide) a6.length a6 le_rfl
  have hdash : '-' ∉ y := by
    intro hmem
    rcases hmemy _ hmem with h7 | h
    · exact hdash7 h7
    · exact absurd h (by decide)
  -- second pass: every step is the identity
  rcases eq_or_ne y [] with hy0 | hy0
  · rw [hy0]
    rfl
  rw [normalizeNameL_eq y hy0, lowerL_eq_self hfix, replaceL_no_op h1,
    replaceL_no_op h2, replaceL_no_op h3, replaceL_no_op h4, replaceL_no_op h5,
    replaceL_single_no_op hamp, replaceL_single_no_op hdash, hsplit]
  exact hy7.symm

/-- C6 counterexample: `normalize_name` is NOT idempotent.  Removing the
token `cafe` from `"cacafefe"` creates a new occurrence: one application
yields `"cafe"`, a second application yields `""`. -/
theorem c6_not_idempotent_counterexample :
    normalizeName "cacafefe" = "cafe" ∧
      normalizeName (normalizeName "cacafefe") = "" ∧
      normalizeName (normalizeName "cacafefe") ≠ normalizeName "cacafefe" := by
  exact ⟨by decide, by decide, by decide⟩

/-- C6 amended: `normalize_name` is idempotent on every input whose
normalized form contains no occurrence of the removed tokens
(`restaurace`, `restaurant`, `kavárna`, `café`, `cafe`); in general token
removal can create a fresh token occurrence and break idempotence. -/
theorem c6_idempotent_on_token_free_inputs :
    ∀ x : String,
      containsSub "restaurace".data (normalizeName x).data = false →
      containsSub "restaurant".data (normalizeName x).data = false →
      containsSub "kavárna".data (normalizeName x).data = false →
      containsSub "café".data (normalizeName x).data = false →
      containsSub "cafe".data (normalizeName x).data = false →
      normalizeName (normalizeName x) = normalizeName x := by
  intro x h1 h2 h3 h4 h5
  exact congrArg String.mk
    (normalizeNameL_idem_of_token_free x.data h1 h2 h3 h4 h5)

/-- Witness for C6's amended theorem at a concrete input. -/
theorem c6_idempotent_on_token_free_inputs_witness :
    normalizeName (normalizeName "Zlatá  Hospoda & Bar") =
      normalizeName "Zlatá  Hospoda & Bar" :=
  c6_idempotent_on_token_free_inputs "Zlatá  Hospoda & Bar"
    (by decide) (by decide) (by decide) (by decide) (by decide)
